import Mathlib

/-!
Shallow embedding of the httpd1 static HTTP server, with proofs about the
properties its specification claims.  Bytes are modelled as `Nat`, byte
strings as `List Nat`.  External collaborators (the OS filesystem, the
`time` crate's date formatting, the socket) are modelled as parameters of
the functions that consume them.
-/

/-- Convert an ASCII string literal into the byte list it denotes. -/
def bytes (s : String) : List Nat := s.toList.map Char.toNat

/-! ## path.rs: `sanitize` -/

/-- One step of the closure passed to `filter_map_in_place` in
`path::sanitize`: NUL becomes `_`, a `/` right after a `/` is dropped, a
`.` right after a `/` becomes `:`, anything else passes through.
`last` is the previous input byte, as in the Rust closure. -/
def sanitizeStep (last : Option Nat) (c : Nat) : Option Nat :=
  if c = 0 then some 95
  else if c = 47 ∧ last = some 47 then none
  else if c = 46 ∧ last = some 47 then some 58
  else some c

/-- The stateful filter-map of `path::sanitize`, with the closure state
`last` made explicit. -/
def sanitizeAux : Option Nat → List Nat → List Nat
  | _, [] => []
  | last, c :: rest =>
    match sanitizeStep last c with
    | none => sanitizeAux (some c) rest
    | some r => r :: sanitizeAux (some c) rest

/-- `path::sanitize`: run the stateful filter-map with no previous byte. -/
def sanitize (p : List Nat) : List Nat := sanitizeAux none p

/-- Adjacency relation satisfied by sanitized output: a `/` is never
followed by another `/` nor by a `.`. -/
def SanRel (a b : Nat) : Prop := a = 47 → b ≠ 47 ∧ b ≠ 46

/-- Structural invariant of `sanitizeAux`: the output has no NUL, its
adjacent pairs satisfy `SanRel`, and if the previous input byte was `/`
then the output cannot begin with `/` or `.`. -/
theorem sanitizeAux_inv (p : List Nat) : ∀ last : Option Nat,
    (0 ∉ sanitizeAux last p)
    ∧ List.Chain' SanRel (sanitizeAux last p)
    ∧ (last = some 47 → ∀ h, (sanitizeAux last p).head? = some h →
        h ≠ 47 ∧ h ≠ 46) := by
  induction p with
  | nil => intro last; refine ⟨by simp [sanitizeAux], by simp [sanitizeAux], ?_⟩
           intro _ h hh; simp [sanitizeAux] at hh
  | cons c rest ih =>
    intro last
    obtain ⟨ih1, ih2, ih3⟩ := ih (some c)
    by_cases h0 : c = 0
    · subst h0
      have hstep : sanitizeStep last 0 = some 95 := by simp [sanitizeStep]
      refine ⟨?_, ?_, ?_⟩
      · simp only [sanitizeAux, hstep]
        intro hmem
        rcases List.mem_cons.mp hmem with h | h
        · omega
        · exact ih1 h
      · simp only [sanitizeAux, hstep]
        refine List.chain'_cons'.mpr ⟨?_, ih2⟩
        intro y _; intro h95; omega
      · intro _ h hh
        simp only [sanitizeAux, hstep, List.head?_cons, Option.some_inj] at hh
        omega
    · by_cases hdrop : c = 47 ∧ last = some 47
      · have hstep : sanitizeStep last c = none := by
          simp [sanitizeStep, h0, hdrop]
        refine ⟨?_, ?_, ?_⟩
        · simp only [sanitizeAux, hstep]; exact ih1
        · simp only [sanitizeAux, hstep]; exact ih2
        · intro _ h hh
          simp only [sanitizeAux, hstep] at hh
          exact ih3 (by rw [hdrop.1]) h hh
      · by_cases hdot : c = 46 ∧ last = some 47
        · have hstep : sanitizeStep last c = some 58 := by
            simp [sanitizeStep, h0, hdrop, hdot]
          refine ⟨?_, ?_, ?_⟩
          · simp only [sanitizeAux, hstep]
            intro hmem
            rcases List.mem_cons.mp hmem with h | h
            · omega
            · exact ih1 h
          · simp only [sanitizeAux, hstep]
            refine List.chain'_cons'.mpr ⟨?_, ih2⟩
            intro y _; intro h58; omega
          · intro _ h hh
            simp only [sanitizeAux, hstep, List.head?_cons, Option.some_inj] at hh
            omega
        · have hstep : sanitizeStep last c = some c := by
            simp [sanitizeStep, h0, hdrop, hdot]
          refine ⟨?_, ?_, ?_⟩
          · simp only [sanitizeAux, hstep]
            intro hmem
            rcases List.mem_cons.mp hmem with h | h
            · exact h0 h.symm
            · exact ih1 h
          · simp only [sanitizeAux, hstep]
            refine List.chain'_cons'.mpr ⟨?_, ih2⟩
            intro y hy hc47
            exact ih3 (by rw [hc47]) y hy
          · intro hlast h hh
            simp only [sanitizeAux, hstep, List.head?_cons, Option.some_inj] at hh
            subst hh
            constructor
            · intro hc; exact hdrop ⟨hc, hlast⟩
            · intro hc; exact hdot ⟨hc, hlast⟩

/-- If adjacent pairs of `l` satisfy `R`, any two-element infix of `l`
satisfies `R`. -/
theorem chain'_pair {R : Nat → Nat → Prop} {l : List Nat} {a b : Nat}
    (hc : List.Chain' R l) (h : [a, b] <:+: l) : R a b := by
  obtain ⟨s, t, hst⟩ := h
  rw [← hst, List.append_assoc] at hc
  have h2 := (List.chain'_append.mp hc).2.1
  exact (List.chain'_cons.mp h2).1

/-- Claim C1: for every byte string, the output of `path::sanitize`
contains no `/..`, no two adjacent `/` bytes, and no NUL byte.  In
particular this holds for every percent-decoded request path composed
into `./HOST/PATH`. -/
theorem c1_sanitize_safe (p : List Nat) :
    ¬ (bytes "/.." <:+: sanitize p)
    ∧ ¬ (bytes "//" <:+: sanitize p)
    ∧ 0 ∉ sanitize p := by
  obtain ⟨h0, hchain, -⟩ := sanitizeAux_inv p none
  have hdd : bytes "/.." = [47, 46, 46] := rfl
  have hss : bytes "//" = [47, 47] := rfl
  refine ⟨?_, ?_, h0⟩
  · intro hinf
    rw [hdd] at hinf
    have h2 : [47, 46] <:+: sanitize p :=
      List.IsInfix.trans ⟨[], [46], rfl⟩ hinf
    exact ((chain'_pair hchain h2) rfl).2 rfl
  · intro hinf
    rw [hss] at hinf
    exact ((chain'_pair hchain hinf) rfl).1 rfl

/-- `sanitizeAux` is the identity on lists that already satisfy the
sanitized-output invariant. -/
theorem sanitizeAux_id (l : List Nat) : ∀ last : Option Nat,
    (0 ∉ l) → List.Chain' SanRel l →
    (last = some 47 → ∀ h, l.head? = some h → h ≠ 47 ∧ h ≠ 46) →
    sanitizeAux last l = l := by
  induction l with
  | nil => intro last _ _ _; rfl
  | cons c rest ih =>
    intro last hmem hchain hcompat
    have hc0 : c ≠ 0 := by
      intro h; exact hmem (by simp [h])
    have hstep : sanitizeStep last c = some c := by
      by_cases h47 : last = some 47
      · have hcc := hcompat h47 c (by simp)
        simp [sanitizeStep, hc0, hcc.1, hcc.2]
      · simp [sanitizeStep, hc0, h47]
    simp only [sanitizeAux, hstep]
    congr 1
    apply ih (some c)
    · intro h; exact hmem (List.mem_cons_of_mem _ h)
    · exact hchain.tail
    · intro hc47 y hy
      have hh := (List.chain'_cons'.mp hchain).1 y (by simp [hy])
      exact hh (Option.some_inj.mp hc47)

/-- Claim C10: `path::sanitize` is idempotent. -/
theorem c10_sanitize_idempotent (p : List Nat) :
    sanitize (sanitize p) = sanitize p := by
  obtain ⟨h0, hchain, -⟩ := sanitizeAux_inv p none
  exact sanitizeAux_id (sanitize p) none h0 hchain (fun h => Option.noConfusion h)

/-! ## percent.rs: `unescape` -/

/-- `fromhex` from `percent::unescape`: value of one hex digit byte. -/
def fromhex (b : Nat) : Option Nat :=
  if 48 ≤ b ∧ b ≤ 57 then some (b - 48)
  else if 65 ≤ b ∧ b ≤ 70 then some (b - 65 + 10)
  else if 97 ≤ b ∧ b ≤ 102 then some (b - 97 + 10)
  else none

/-- `percent::unescape`: decode percent escapes, `none` models the
`Err(HttpError::BadRequest)` return. -/
def unescape : List Nat → Option (List Nat)
  | [] => some []
  | c :: rest =>
    if c = 37 then
      match rest with
      | a :: b :: rest2 =>
        match fromhex a, fromhex b with
        | some x, some y => (unescape rest2).map (fun t => (x * 16 + y) :: t)
        | _, _ => none
      | _ => none
    else (unescape rest).map (fun t => c :: t)

/-- Whether some `%` byte anywhere in the list is not followed by two hex
digit bytes.  Every position is inspected, matching the claim's wording. -/
def hasBadPercent : List Nat → Bool
  | [] => false
  | c :: rest =>
    (if c = 37 then
      match rest with
      | a :: b :: _ => !((fromhex a).isSome && (fromhex b).isSome)
      | _ => true
     else false) || hasBadPercent rest

/-- A byte with a hex value is not the `%` byte. -/
theorem fromhex_isSome_ne {a : Nat} (h : (fromhex a).isSome = true) : a ≠ 37 := by
  intro ha; subst ha; simp [fromhex] at h

/-- Skipping a hex-digit byte does not change whether a bad escape exists. -/
theorem hasBadPercent_cons_hex (a : Nat) (rest : List Nat)
    (ha : (fromhex a).isSome = true) :
    hasBadPercent (a :: rest) = hasBadPercent rest := by
  have hne := fromhex_isSome_ne ha
  simp [hasBadPercent, hne]


/-- Unfolding of `unescape` on a non-`%` head byte. -/
theorem unescape_cons_ne (c : Nat) (rest : List Nat) (hc : c ≠ 37) :
    unescape (c :: rest) = (unescape rest).map (fun t => c :: t) := by
  rw [unescape.eq_def]; simp [hc]

/-- Unfolding of `unescape` on a valid escape. -/
theorem unescape_cons_escape (a b x y : Nat) (rest : List Nat)
    (ha : fromhex a = some x) (hb : fromhex b = some y) :
    unescape (37 :: a :: b :: rest) =
      (unescape rest).map (fun t => (x * 16 + y) :: t) := by
  rw [unescape.eq_def]; simp [ha, hb]

/-- Unfolding of `hasBadPercent` on a `%` head followed by two hex
digits. -/
theorem hasBadPercent_cons_escape (a b : Nat) (rest : List Nat)
    (ha : (fromhex a).isSome = true) (hb : (fromhex b).isSome = true) :
    hasBadPercent (37 :: a :: b :: rest) = hasBadPercent rest := by
  rw [show hasBadPercent (37 :: a :: b :: rest)
      = ((!((fromhex a).isSome && (fromhex b).isSome)) || hasBadPercent (a :: b :: rest))
    from by rw [hasBadPercent.eq_def]; simp]
  rw [ha, hb, hasBadPercent_cons_hex a _ ha, hasBadPercent_cons_hex b _ hb]
  simp

/-- `unescape` fails exactly when some `%` byte is not followed by two hex
digits, ranging over every position of the input. -/
theorem unescape_none_iff : ∀ (n : Nat) (l : List Nat), l.length ≤ n →
    (unescape l = none ↔ hasBadPercent l = true) := by
  intro n
  induction n with
  | zero =>
    intro l hl
    have hnil : l = [] := List.eq_nil_of_length_eq_zero (Nat.le_zero.mp hl)
    subst hnil; simp [unescape, hasBadPercent]
  | succ n ih =>
    intro l hl
    rcases l with _ | ⟨c, rest⟩
    · simp [unescape, hasBadPercent]
    · by_cases hc : c = 37
      · subst hc
        rcases rest with _ | ⟨a, rest'⟩
        · simp [unescape, hasBadPercent]
        · rcases rest' with _ | ⟨b, rest2⟩
          · simp [unescape, hasBadPercent]
          · cases hfa : fromhex a with
            | none => simp [unescape, hasBadPercent, hfa]
            | some x =>
              cases hfb : fromhex b with
              | none => simp [unescape, hasBadPercent, hfa, hfb]
              | some y =>
                have hlen : rest2.length ≤ n := by
                  simp only [List.length_cons] at hl; omega
                have hrec := ih rest2 hlen
                rw [unescape_cons_escape a b x y rest2 hfa hfb,
                  hasBadPercent_cons_escape a b rest2 (by rw [hfa]; rfl)
                    (by rw [hfb]; rfl)]
                cases hur : unescape rest2 with
                | none => simpa [hur] using hrec.mp hur
                | some t =>
                  have hnb : ¬ hasBadPercent rest2 = true := fun hb => by
                    rw [hrec.mpr hb] at hur; exact Option.noConfusion hur
                  simp [hur, hnb]
      · have hlen : rest.length ≤ n := by
          simp only [List.length_cons] at hl; omega
        have hrec := ih rest hlen
        rw [unescape_cons_ne c rest hc,
          show hasBadPercent (c :: rest) = hasBadPercent rest
            from by rw [hasBadPercent.eq_def]; simp [hc]]
        cases hur : unescape rest with
        | none => simpa [hur] using hrec.mp hur
        | some t =>
          have hnb : ¬ hasBadPercent rest = true := fun hb => by
            rw [hrec.mpr hb] at hur; exact Option.noConfusion hur
          simp [hur, hnb]

/-- `unescape` passes `%`-free inputs through unchanged. -/
theorem unescape_id_of_no_percent : ∀ l : List Nat,
    (∀ c ∈ l, c ≠ 37) → unescape l = some l := by
  intro l
  induction l with
  | nil => intro _; rfl
  | cons c rest ih =>
    intro h
    have hc : c ≠ 37 := h c (by simp)
    rw [unescape_cons_ne c rest hc,
      ih (fun x hx => h x (List.mem_cons_of_mem _ hx))]
    rfl

/-- Claim C7: `percent::unescape` fails exactly when some `%` byte is not
followed by two hex digits; otherwise each `%hh` escape decodes to the
byte `16*high + low`, other bytes pass through, and `%`-free inputs are
returned unchanged. -/
theorem c7_unescape (l : List Nat) :
    (unescape l = none ↔ hasBadPercent l = true)
    ∧ ((∀ c ∈ l, c ≠ 37) → unescape l = some l)
    ∧ (∀ a b x y rest, fromhex a = some x → fromhex b = some y →
        unescape (37 :: a :: b :: rest) =
          (unescape rest).map (fun t => (x * 16 + y) :: t))
    ∧ (∀ c rest, c ≠ 37 →
        unescape (c :: rest) = (unescape rest).map (fun t => c :: t)) := by
  refine ⟨unescape_none_iff l.length l (Nat.le_refl _),
    unescape_id_of_no_percent l, ?_, ?_⟩
  · intro a b x y rest ha hb
    exact unescape_cons_escape a b x y rest ha hb
  · intro c rest hc
    exact unescape_cons_ne c rest hc

/-- Concrete instances of Claim C7: a plain string decodes to itself, and
escapes decode to the encoded byte. -/
theorem c7_unescape_witness :
    unescape (bytes "abc") = some (bytes "abc")
    ∧ unescape (bytes "%41") = some [65]
    ∧ unescape (bytes "Z%31") = some [90, 49] := by
  refine ⟨(c7_unescape (bytes "abc")).2.1 (by decide), ?_, ?_⟩
  · have h := (c7_unescape []).2.2.1 52 49 4 1 [] (by decide) (by decide)
    rw [show bytes "%41" = [37, 52, 49] from rfl, h]; decide
  · have h := (c7_unescape []).2.2.2 90 (bytes "%31") (by decide)
    rw [show bytes "Z%31" = 90 :: bytes "%31" from rfl, h]; decide

/-! ## error.rs -/

/-- `HttpError` from error.rs.  Context strings and the `io::Error`
description are byte lists. -/
inductive HttpError where
  | connectionClosed
  | badRequest
  | notFound (ctx : List Nat)
  | requestTimeout
  | preconditionFailed
  | spanishInquisition
  | badMethod
  | notImplemented (ctx : List Nat)
  | badProtocol
  | ioError (desc : List Nat)
deriving DecidableEq, Repr

/-- `HttpError::status`: numeric status code and reason bytes, `none` for
`ConnectionClosed`. -/
def HttpError.status : HttpError → Option (List Nat × List Nat)
  | .connectionClosed => none
  | .badRequest => some (bytes "400", bytes "bad request")
  | .notFound _ => some (bytes "404", bytes "not found")
  | .requestTimeout => some (bytes "408", bytes "type faster")
  | .preconditionFailed => some (bytes "412", bytes "precondition failed")
  | .spanishInquisition => some (bytes "417", bytes "unexpected")
  | .ioError e => some (bytes "500", e)
  | .badMethod => some (bytes "501", bytes "bad method")
  | .notImplemented m => some (bytes "501", m)
  | .badProtocol => some (bytes "505", bytes "bad protocol")

/-! ## ascii.rs and request.rs -/

/-- ASCII lowercasing of one byte, as in `u8::to_ascii_lowercase`. -/
def lowerByte (b : Nat) : Nat := if 65 ≤ b ∧ b ≤ 90 then b + 32 else b

/-- `starts_with_ignore_ascii_case` for byte slices: the length guard and
the case-insensitive comparison of the prefix-sized head. -/
def startsWithIgnoreCase (l p : List Nat) : Bool :=
  if l.length < p.length then false
  else (l.take p.length).map lowerByte == p.map lowerByte

/-- `request::Method`. -/
inductive Method where
  | get
  | head
deriving DecidableEq, Repr

/-- `request::Protocol`. -/
inductive Protocol where
  | http10
  | http11
deriving DecidableEq, Repr

/-- `request::Request`. -/
structure Request where
  method : Method
  protocol : Protocol
  host : Option (List Nat)
  path : List Nat
  if_modified_since : Option (List Nat)
  accept_gzip : Bool
deriving DecidableEq, Repr

/-- `is_http_ws` from request.rs. -/
def is_http_ws (c : Nat) : Bool := c == 32 || c == 9

/-- Split a byte list at its first space, if any. -/
def splitOnce : List Nat → Option (List Nat × List Nat)
  | [] => none
  | c :: rest =>
    if c = 32 then some ([], rest)
    else (splitOnce rest).map (fun p => (c :: p.1, p.2))

/-- `line.splitn(3, is_space).collect()`: at most three parts, the third
keeps any remaining spaces. -/
def splitn3 (l : List Nat) : List (List Nat) :=
  match splitOnce l with
  | none => [l]
  | some (a, rest) =>
    match splitOnce rest with
    | none => [a, rest]
    | some (b, rest2) => [a, b, rest2]

/-- The method match in `parse_request_line`. -/
def parseMethod (p : List Nat) : Except HttpError Method :=
  if p = bytes "GET" then .ok .get
  else if p = bytes "HEAD" then .ok .head
  else .error .badMethod

/-- The version match in `parse_request_line`. -/
def parseProtocol (p : List Nat) : Except HttpError Protocol :=
  if p = bytes "HTTP/1.0" then .ok .http10
  else if p = bytes "HTTP/1.1" then .ok .http11
  else .error .badProtocol

/-- `indexof` from request.rs: index of the first occurrence, or the
length when absent. -/
def indexof (l : List Nat) (item : Nat) : Nat := l.findIdx (fun x => item == x)

/-- The host/path split of the request target in `parse_request_line`:
an `http://` scheme prefix carries the host up to the first slash. -/
def splitHostPath (raw : List Nat) : Option (List Nat) × List Nat :=
  if startsWithIgnoreCase raw (bytes "http://") then
    let rest := raw.drop 7
    let host := rest.take (indexof rest 47)
    let path := rest.drop (indexof rest 47)
    if host = [] then (none, path) else (some host, path)
  else (none, raw)

/-- `request::parse_request_line`. -/
def parse_request_line (line : List Nat) : Except HttpError Request :=
  match splitn3 line with
  | [p0, p1, p2] =>
    match parseMethod p0 with
    | .error e => .error e
    | .ok method =>
      let hp := splitHostPath p1
      match parseProtocol p2 with
      | .error e => .error e
      | .ok protocol =>
        let path :=
          if hp.2 = [] ∨ hp.2.getLast? = some 47 then hp.2 ++ bytes "index.html"
          else hp.2
        .ok ⟨method, protocol, hp.1, path, none, false⟩
  | _ => .error .badRequest

/-- Claim C5: `parse_request_line` rejects request lines that do not split
into three parts with `BadRequest`; with three parts, an unknown method
gives `BadMethod` and then an unknown version gives `BadProtocol`. -/
theorem c5_parse_request_line (line : List Nat) :
    ((splitn3 line).length ≠ 3 →
      parse_request_line line = .error .badRequest)
    ∧ (∀ p0 p1 p2, splitn3 line = [p0, p1, p2] →
        ((p0 ≠ bytes "GET" ∧ p0 ≠ bytes "HEAD") →
          parse_request_line line = .error .badMethod)
        ∧ ((p0 = bytes "GET" ∨ p0 = bytes "HEAD") →
            p2 ≠ bytes "HTTP/1.0" → p2 ≠ bytes "HTTP/1.1" →
            parse_request_line line = .error .badProtocol)) := by
  constructor
  · intro hlen
    rcases hs : splitn3 line with _ | ⟨a, _ | ⟨b, _ | ⟨c, rest⟩⟩⟩ <;>
      simp only [parse_request_line, hs]
    · rcases rest with _ | ⟨d, rest2⟩
      · exact absurd (by rw [hs]; rfl) hlen
      · rfl
  · intro p0 p1 p2 hs
    constructor
    · intro ⟨h1, h2⟩
      simp only [parse_request_line, hs, parseMethod, if_neg h1, if_neg h2]
    · intro hm h10 h11
      have hm' : parseMethod p0 = .ok .get ∨ parseMethod p0 = .ok .head := by
        rcases hm with h | h
        · left; simp [parseMethod, h]
        · right
          have hne : (bytes "HEAD" : List Nat) ≠ bytes "GET" := by decide
          simp [parseMethod, h, hne]
      rcases hm' with h | h <;>
        simp only [parse_request_line, hs, h, parseProtocol, if_neg h10,
          if_neg h11]

/-- Concrete instances of Claim C5: two-part, bad-method and bad-version
request lines. -/
theorem c5_witness :
    parse_request_line (bytes "GET /index.html") = .error .badRequest
    ∧ parse_request_line (bytes "PUT / HTTP/1.1") = .error .badMethod
    ∧ parse_request_line (bytes "GET / HTTP/2.0") = .error .badProtocol := by
  refine ⟨(c5_parse_request_line (bytes "GET /index.html")).1 (by decide),
    ((c5_parse_request_line (bytes "PUT / HTTP/1.1")).2
      (bytes "PUT") (bytes "/") (bytes "HTTP/1.1") (by decide)).1
      ⟨by decide, by decide⟩,
    ((c5_parse_request_line (bytes "GET / HTTP/2.0")).2
      (bytes "GET") (bytes "/") (bytes "HTTP/2.0") (by decide)).2
      (Or.inl rfl) (by decide) (by decide)⟩

/-! ## request.rs: header processing -/

/-- Result of processing one accumulated header in `request::read`.
`panic` models a Rust index-out-of-bounds panic. -/
inductive HeaderOutcome where
  | panic
  | err (e : HttpError)
  | ok (r : Request)
deriving DecidableEq, Repr

/-- Rust `hdr[i..]`: the slice when `i ≤ len`, a panic otherwise. -/
def sliceFrom (l : List Nat) (i : Nat) : Option (List Nat) :=
  if i ≤ l.length then some (l.drop i) else none

/-- The `windows(4)` scan of `Accept-Encoding` for a case-insensitive
`gzip` substring. -/
def scanGzip : List Nat → Bool
  | [] => false
  | a :: rest => startsWithIgnoreCase (a :: rest) (bytes "gzip") || scanGzip rest

/-- The context string of the `NotImplemented` refusal of request
bodies. -/
def cannotReceiveMsg : List Nat := bytes "I can" ++ 39 :: bytes "t receive messages"

/-- Processing of one complete accumulated header `hdr` in
`request::read`, updating the request record.  The fixed-offset slices
`hdr[5..]`, `hdr[18..]` and `hdr[16..]` are modelled with `sliceFrom` so
that an out-of-bounds index is visible as `panic`. -/
def processHeader (req : Request) (hdr : List Nat) : HeaderOutcome :=
  if startsWithIgnoreCase hdr (bytes "content-length:")
      || startsWithIgnoreCase hdr (bytes "transfer-encoding:") then
    .err (.notImplemented cannotReceiveMsg)
  else if startsWithIgnoreCase hdr (bytes "expect") then
    .err .spanishInquisition
  else if startsWithIgnoreCase hdr (bytes "if-match")
      || startsWithIgnoreCase hdr (bytes "if-unmodified-since") then
    .err .preconditionFailed
  else if startsWithIgnoreCase hdr (bytes "host") then
    if req.host = none then
      match sliceFrom hdr 5 with
      | none => .panic
      | some t =>
        let new_host := t.filter (fun b => !is_http_ws b)
        if new_host ≠ [] then .ok { req with host := some new_host }
        else .ok req
    else .ok req
  else if startsWithIgnoreCase hdr (bytes "if-modified-since") then
    match sliceFrom hdr 18 with
    | none => .panic
    | some t => .ok { req with if_modified_since := some (t.dropWhile is_http_ws) }
  else if startsWithIgnoreCase hdr (bytes "accept-encoding:") then
    match sliceFrom hdr 16 with
    | none => .panic
    | some t => if scanGzip t then .ok { req with accept_gzip := true } else .ok req
  else .ok req

/-- A request as parsed from `GET / HTTP/1.0`, before header processing. -/
def req0 : Request :=
  ⟨Method.get, Protocol.http10, none, bytes "/index.html", none, false⟩

/-- Claim C2 is false on the code: the case-insensitive prefix check for
`host` accepts the 4-byte accumulator `host`, for which `hdr[5..]` is out
of bounds, and the prefix check for `if-modified-since` accepts the
17-byte accumulator itself, for which `hdr[18..]` is out of bounds; both
make header processing panic instead of returning a `Request` or an
`HttpError`. -/
theorem c2_header_oob :
    startsWithIgnoreCase (bytes "host") (bytes "host") = true
    ∧ processHeader req0 (bytes "host") = .panic
    ∧ startsWithIgnoreCase (bytes "if-modified-since")
        (bytes "if-modified-since") = true
    ∧ processHeader req0 (bytes "if-modified-since") = .panic := by
  refine ⟨by decide, by decide, by decide, by decide⟩

/-- Sanity check that ordinary headers do not panic: a well-formed
`Host:` header is accepted and sets the request host. -/
theorem c2_header_regular :
    processHeader req0 (bytes "Host: example.com") =
      .ok { req0 with host := some (bytes "example.com") } := by
  decide

/-! ## file.rs: `safe_open` -/

/-- The `io::ErrorKind` cases distinguished by `From<io::Error> for
HttpError`; `other` carries the error description. -/
inductive IoErrorKind where
  | notFound
  | permissionDenied
  | timedOut
  | other (desc : List Nat)
deriving DecidableEq, Repr

/-- `From<io::Error> for HttpError` from error.rs. -/
def ioErrorToHttp : IoErrorKind → HttpError
  | .notFound => .notFound (bytes "io not found")
  | .permissionDenied => .notFound (bytes "io permission denied")
  | .timedOut => .requestTimeout
  | .other d => .ioError d

/-- Metadata of a freshly opened file descriptor: a handle identifier and
the fields `safe_open` inspects. -/
structure Meta where
  fileId : Nat
  mode : Nat
  isDir : Bool
  isFile : Bool
  mtime : Nat
  len : Nat
deriving DecidableEq, Repr

/-- `file::OpenFile`: handle, modification time and length. -/
structure OpenFile where
  fileId : Nat
  mtime : Nat
  length : Nat
deriving DecidableEq, Repr

/-- `file::FileOrDir`. -/
inductive FileOrDir where
  | file (f : OpenFile)
  | dir
deriving DecidableEq, Repr

/-- `file::safe_open`.  The OS open (with its metadata fetch) is external
and enters as `openResult`; its error kind is mapped through
`From<io::Error>`. -/
def safe_open (openResult : Except IoErrorKind Meta) : Except HttpError FileOrDir :=
  match openResult with
  | .error e => .error (ioErrorToHttp e)
  | .ok m =>
    if m.mode &&& 0o444 ≠ 0o444 then .error (.notFound (bytes "not ugo+r"))
    else if m.mode &&& 0o101 = 0o001 then .error (.notFound (bytes "o+x but u-x"))
    else if m.isDir then .ok .dir
    else if m.isFile then .ok (.file ⟨m.fileId, m.mtime, m.len⟩)
    else .error (.notFound (bytes "not a regular file"))

/-- Claim C6: `safe_open` fails only with `NotFound`, `RequestTimeout` or
`IoError`; mode-check and inode-kind failures give `NotFound` with the
corresponding static context, open-time OS errors are mapped as in
`From<io::Error>`, and passing inodes give the `Dir` or `File` variant. -/
theorem c6_safe_open (r : Except IoErrorKind Meta) :
    (∀ e, safe_open r = .error e →
      (∃ c, e = HttpError.notFound c) ∨ e = HttpError.requestTimeout
        ∨ ∃ d, e = HttpError.ioError d)
    ∧ (r = .error .notFound →
        safe_open r = .error (.notFound (bytes "io not found")))
    ∧ (r = .error .permissionDenied →
        safe_open r = .error (.notFound (bytes "io permission denied")))
    ∧ (r = .error .timedOut → safe_open r = .error .requestTimeout)
    ∧ (∀ d, r = .error (.other d) → safe_open r = .error (.ioError d))
    ∧ (∀ m, r = .ok m → m.mode &&& 0o444 ≠ 0o444 →
        safe_open r = .error (.notFound (bytes "not ugo+r")))
    ∧ (∀ m, r = .ok m → m.mode &&& 0o444 = 0o444 → m.mode &&& 0o101 = 0o001 →
        safe_open r = .error (.notFound (bytes "o+x but u-x")))
    ∧ (∀ m, r = .ok m → m.mode &&& 0o444 = 0o444 → m.mode &&& 0o101 ≠ 0o001 →
        m.isDir = true → safe_open r = .ok .dir)
    ∧ (∀ m, r = .ok m → m.mode &&& 0o444 = 0o444 → m.mode &&& 0o101 ≠ 0o001 →
        m.isDir = false → m.isFile = true →
        safe_open r = .ok (.file ⟨m.fileId, m.mtime, m.len⟩))
    ∧ (∀ m, r = .ok m → m.mode &&& 0o444 = 0o444 → m.mode &&& 0o101 ≠ 0o001 →
        m.isDir = false → m.isFile = false →
        safe_open r = .error (.notFound (bytes "not a regular file"))) := by
  refine ⟨?_, ?_, ?_, ?_, ?_, ?_, ?_, ?_, ?_, ?_⟩
  · intro e he
    rcases r with e0 | m
    · rcases e0 with _ | _ | _ | d <;>
        simp [safe_open, ioErrorToHttp] at he <;> subst he <;> simp
    · simp only [safe_open] at he
      split at he
      · exact Or.inl ⟨_, (Except.error.inj he).symm⟩
      · split at he
        · exact Or.inl ⟨_, (Except.error.inj he).symm⟩
        · split at he
          · exact Except.noConfusion he
          · split at he
            · exact Except.noConfusion he
            · exact Or.inl ⟨_, (Except.error.inj he).symm⟩
  · intro h; subst h; rfl
  · intro h; subst h; rfl
  · intro h; subst h; rfl
  · intro d h; subst h; rfl
  · intro m h hm; subst h; simp [safe_open, hm]
  · intro m h h4 h1; subst h; simp [safe_open, h4, h1]
  · intro m h h4 h1 hd; subst h; simp [safe_open, h4, h1, hd]
  · intro m h h4 h1 hd hf; subst h; simp [safe_open, h4, h1, hd, hf]
  · intro m h h4 h1 hd hf; subst h; simp [safe_open, h4, h1, hd, hf]

/-- Concrete instances of Claim C6: a permission-denied open and a
readable regular file. -/
theorem c6_witness :
    safe_open (.error .permissionDenied) =
      .error (.notFound (bytes "io permission denied"))
    ∧ safe_open (.ok ⟨7, 0o644, false, true, 11, 22⟩) =
        .ok (.file ⟨7, 11, 22⟩) := by
  refine ⟨(c6_safe_open (.error .permissionDenied)).2.2.1 rfl, ?_⟩
  exact (c6_safe_open (.ok ⟨7, 0o644, false, true, 11, 22⟩)).2.2.2.2.2.2.2.2.1
    ⟨7, 0o644, false, true, 11, 22⟩ rfl (by decide) (by decide) rfl rfl

/-! ## server.rs: gzip alternate selection -/

/-- `response::ContentEncoding`. -/
inductive ContentEncoding where
  | gzip
deriving DecidableEq, Repr

/-- The gzip-alternate selection step of `serve_request`: when the client
accepts gzip and opening `file_path + ".gz"` gave a file at least as
recent as the primary, swap in its handle and length, keep the primary
mtime, and mark the Gzip encoding. -/
def gzipSwap (accept_gzip : Bool) (resource : OpenFile)
    (altResult : Except HttpError FileOrDir) : OpenFile × Option ContentEncoding :=
  if accept_gzip then
    match altResult with
    | .ok (.file alt) =>
      if resource.mtime ≤ alt.mtime then
        ({ fileId := alt.fileId, mtime := resource.mtime, length := alt.length },
          some .gzip)
      else (resource, none)
    | _ => (resource, none)
  else (resource, none)

/-- Claim C8: the gzip swap replaces exactly the handle and length and
sets the Gzip encoding when the client accepts gzip and a fresh-enough
`.gz` alternate opened as a file; in every other case the resource and
encoding are unchanged. -/
theorem c8_gzip_swap (g : Bool) (res : OpenFile)
    (alt : Except HttpError FileOrDir) :
    (∀ a, g = true → alt = .ok (.file a) → res.mtime ≤ a.mtime →
      gzipSwap g res alt =
        ({ fileId := a.fileId, mtime := res.mtime, length := a.length },
          some .gzip))
    ∧ (g = false → gzipSwap g res alt = (res, none))
    ∧ (∀ a, alt = .ok (.file a) → ¬ res.mtime ≤ a.mtime →
        gzipSwap g res alt = (res, none))
    ∧ (alt = .ok .dir → gzipSwap g res alt = (res, none))
    ∧ (∀ e, alt = .error e → gzipSwap g res alt = (res, none)) := by
  refine ⟨?_, ?_, ?_, ?_, ?_⟩
  · intro a hg ha hm; subst hg; subst ha; simp [gzipSwap, hm]
  · intro hg; subst hg; rfl
  · intro a ha hm; subst ha; cases g <;> simp [gzipSwap, hm]
  · intro ha; subst ha; cases g <;> rfl
  · intro e ha; subst ha; cases g <;> rfl

/-- Concrete instances of Claim C8: a fresh alternate is swapped in, a
stale one is ignored. -/
theorem c8_witness :
    gzipSwap true ⟨1, 10, 100⟩ (.ok (.file ⟨2, 12, 44⟩)) =
      (⟨2, 10, 44⟩, some .gzip)
    ∧ gzipSwap true ⟨1, 10, 100⟩ (.ok (.file ⟨2, 9, 44⟩)) = (⟨1, 10, 100⟩, none) := by
  refine ⟨(c8_gzip_swap true ⟨1, 10, 100⟩ (.ok (.file ⟨2, 12, 44⟩))).1
      ⟨2, 12, 44⟩ rfl rfl (by decide), ?_⟩
  exact (c8_gzip_swap true ⟨1, 10, 100⟩ (.ok (.file ⟨2, 9, 44⟩))).2.2.1
    ⟨2, 9, 44⟩ rfl (by decide)

/-! ## response.rs -/

/-- CRLF bytes. -/
def crlf : List Nat := bytes "\r\n"

/-- One lowercase hex digit byte, as produced by the `{:x}` format. -/
def hexDigitByte (n : Nat) : Nat := if n < 10 then 48 + n else 97 + (n - 10)

/-- Fueled hex formatting, most significant digit first. -/
def hexDigitsAux : Nat → Nat → List Nat
  | 0, _ => []
  | fuel + 1, n =>
    if n < 16 then [hexDigitByte n]
    else hexDigitsAux fuel (n / 16) ++ [hexDigitByte (n % 16)]

/-- `Connection::write_hex`: the `{:x}` rendering of a usize. -/
def hexBytes (n : Nat) : List Nat := hexDigitsAux (n + 1) n

/-- Fueled decimal formatting, most significant digit first. -/
def decDigitsAux : Nat → Nat → List Nat
  | 0, _ => []
  | fuel + 1, n =>
    if n < 10 then [48 + n]
    else decDigitsAux fuel (n / 10) ++ [48 + n % 10]

/-- `Connection::write_decimal`: the `{}` rendering of a usize. -/
def decBytes (n : Nat) : List Nat := decDigitsAux (n + 1) n

/-- `start_response`: status line plus the `Server` and `Date` headers.
The formatted date is external (the `time` crate) and enters as
`nowStr`. -/
def start_response (prot : Protocol) (nowStr : List Nat)
    (code msg : List Nat) : List Nat :=
  (match prot with
   | .http10 => bytes "HTTP/1.0 "
   | .http11 => bytes "HTTP/1.1 ")
  ++ code ++ bytes " " ++ msg
  ++ bytes "\r\nServer: abstract screaming\r\nDate: " ++ nowStr ++ crlf

/-- The chunk loop of `send_chunked` over the successive `fill_buf`
results: hex length, CRLF, payload, CRLF for each fill, stopping after
an empty fill.  An exhausted list also models an empty fill. -/
def chunkBytes : List (List Nat) → List Nat
  | [] => hexBytes 0 ++ crlf ++ crlf
  | c :: rest =>
    hexBytes c.length ++ crlf ++ c ++ crlf
      ++ (if c.length = 0 then [] else chunkBytes rest)

/-- The body loop of `send_unencoded`: each fill is written verbatim,
stopping at an empty fill. -/
def unencodedBytes : List (List Nat) → List Nat
  | [] => []
  | c :: rest => if c.length = 0 then [] else c ++ unencodedBytes rest

/-- `send_unencoded`: Content-Length framing, body for GET, then the
forced `ConnectionClosed` for HTTP/1.0. -/
def send_unencoded (send_content : Bool) (chunks : List (List Nat))
    (length : Nat) : List Nat × Except HttpError Unit :=
  (bytes "Content-Length: " ++ decBytes length ++ bytes "\r\n\r\n"
     ++ (if send_content then unencodedBytes chunks else []),
   .error .connectionClosed)

/-- `send_chunked`: chunked framing, chunk data only when content is
sent, connection left open. -/
def send_chunked (send_content : Bool) (chunks : List (List Nat)) :
    List Nat × Except HttpError Unit :=
  (bytes "Transfer-Encoding: chunked\r\n\r\n"
     ++ (if send_content then chunkBytes chunks else []),
   .ok ())

/-- The header section written by `response::send` before the framing
dispatch: status line, `Content-Type`, `Last-Modified` and the optional
`Content-Encoding`. -/
def sendHead (protocol : Protocol) (nowStr : List Nat) (unmodified : Bool)
    (encoding : Option ContentEncoding) (content_type mtimeStr : List Nat) :
    List Nat :=
  (if unmodified then
    start_response protocol nowStr (bytes "304") (bytes "not modified")
   else start_response protocol nowStr (bytes "200") (bytes "OK"))
  ++ bytes "Content-Type: " ++ content_type ++ crlf
  ++ bytes "Last-Modified: " ++ mtimeStr ++ crlf
  ++ (match encoding with
      | none => []
      | some ContentEncoding.gzip => bytes "Content-Encoding: gzip\r\n")

/-- `response::send`.  The formatted `Last-Modified` value (the `time`
crate's rfc822 rendering of the resource mtime) enters as `mtimeStr`, the
formatted date as `nowStr`, and the file content as the list `chunks` of
successive `fill_buf` results.  Returns the bytes written and the value
returned to the caller. -/
def send (method : Method) (protocol : Protocol) (nowStr : List Nat)
    (encoding : Option ContentEncoding) (ims : Option (List Nat))
    (content_type mtimeStr : List Nat) (chunks : List (List Nat))
    (length : Nat) : List Nat × Except HttpError Unit :=
  let unmodified : Bool := ims == some mtimeStr
  let send_content : Bool := (method == Method.get) && !unmodified
  let tail :=
    match protocol with
    | .http10 => send_unencoded send_content chunks length
    | .http11 => send_chunked send_content chunks
  (sendHead protocol nowStr unmodified encoding content_type mtimeStr ++ tail.1,
   tail.2)

/-- `response::barf`: the error response, or nothing when the error has
no status pair. -/
def barf (protocol : Option Protocol) (send_content : Bool)
    (error : HttpError) (nowStr : List Nat) : List Nat :=
  match error.status with
  | none => []
  | some (code, message) =>
    start_response (protocol.getD Protocol.http10) nowStr code message
    ++ bytes "Content-Length: " ++ decBytes (message.length + 28) ++ crlf
    ++ (if protocol == some Protocol.http11 then bytes "Connection: close\r\n"
        else [])
    ++ bytes "Content-Type: text/html\r\n\r\n"
    ++ (if send_content then
          bytes "<html><body>" ++ message ++ bytes "</body></html>\r\n"
        else [])

/-- The chunk loop always terminates its output with the zero-length
chunk bytes `0\r\n\r\n`. -/
theorem chunkBytes_suffix (cs : List (List Nat)) :
    bytes "0\r\n\r\n" <:+ chunkBytes cs := by
  induction cs with
  | nil => exact List.suffix_refl _
  | cons c rest ih =>
    by_cases hc : c.length = 0
    · have hcnil : c = [] := List.eq_nil_of_length_eq_zero hc
      subst hcnil
      simp [chunkBytes]
      exact List.suffix_refl _
    · rw [show chunkBytes (c :: rest)
          = (hexBytes c.length ++ crlf ++ c ++ crlf) ++ chunkBytes rest from by
        rw [chunkBytes.eq_def]; simp [hc, List.append_assoc]]
      exact ih.trans (List.suffix_append _ _)

/-- Claim C3 is false on the code: a HEAD response on HTTP/1.1 carries
the chunked framing header but no terminating zero-length chunk. -/
theorem c3_counterexample :
    ¬ (bytes "0\r\n\r\n" <:+
      (send Method.head Protocol.http11 [] none none [] [] [] 0).1) := by
  decide

/-- Claim C3 amended: every HTTP/1.1 response from `response::send`
carries `Transfer-Encoding: chunked` and leaves the connection open; the
body ends with the terminating zero-length chunk `0\r\n\r\n` exactly when
content is sent (a GET that is not a 304); for HEAD or a 304 the framing
header is the end of the response and no chunk bytes at all are
written. -/
theorem c3_chunked (method : Method) (nowStr : List Nat)
    (encoding : Option ContentEncoding) (ims : Option (List Nat))
    (content_type mtimeStr : List Nat) (chunks : List (List Nat))
    (length : Nat) :
    (bytes "Transfer-Encoding: chunked\r\n\r\n" <:+:
      (send method Protocol.http11 nowStr encoding ims content_type mtimeStr
        chunks length).1)
    ∧ (send method Protocol.http11 nowStr encoding ims content_type mtimeStr
        chunks length).2 = .ok ()
    ∧ (method = Method.get → ims ≠ some mtimeStr →
        bytes "0\r\n\r\n" <:+
          (send method Protocol.http11 nowStr encoding ims content_type
            mtimeStr chunks length).1)
    ∧ ((method = Method.head ∨ ims = some mtimeStr) →
        bytes "Transfer-Encoding: chunked\r\n\r\n" <:+
          (send method Protocol.http11 nowStr encoding ims content_type
            mtimeStr chunks length).1) := by
  refine ⟨?_, rfl, ?_, ?_⟩
  · refine ⟨sendHead Protocol.http11 nowStr (ims == some mtimeStr) encoding
      content_type mtimeStr,
      (if (method == Method.get) && !(ims == some mtimeStr) then
        chunkBytes chunks else []), ?_⟩
    simp [send, send_chunked, List.append_assoc]
  · intro hm hi
    have hb : (ims == some mtimeStr) = false := beq_eq_false_iff_ne.mpr hi
    subst hm
    rw [show (send Method.get Protocol.http11 nowStr encoding ims content_type
        mtimeStr chunks length).1
      = sendHead Protocol.http11 nowStr false encoding content_type mtimeStr
        ++ (bytes "Transfer-Encoding: chunked\r\n\r\n" ++ chunkBytes chunks)
      from by simp [send, send_chunked, hb, List.append_assoc]]
    exact ((chunkBytes_suffix chunks).trans (List.suffix_append _ _)).trans
      (List.suffix_append _ _)
  · intro hm
    have hsc : ((method == Method.get) && !(ims == some mtimeStr)) = false := by
      rcases hm with h | h
      · subst h; rfl
      · have : (ims == some mtimeStr) = true := by rw [h]; simp
        simp [this]
    rw [show (send method Protocol.http11 nowStr encoding ims content_type
        mtimeStr chunks length).1
      = sendHead Protocol.http11 nowStr (ims == some mtimeStr) encoding
          content_type mtimeStr
        ++ bytes "Transfer-Encoding: chunked\r\n\r\n"
      from by simp [send, send_chunked, hsc]]
    exact List.suffix_append _ _

/-- Concrete instances of the amended Claim C3: a GET body ends with the
zero chunk, a HEAD response ends with the framing header. -/
theorem c3_chunked_witness :
    (bytes "0\r\n\r\n" <:+
      (send Method.get Protocol.http11 [] none none [] [] [] 0).1)
    ∧ (bytes "Transfer-Encoding: chunked\r\n\r\n" <:+
      (send Method.head Protocol.http11 [] none none [] [] [] 0).1) :=
  ⟨(c3_chunked Method.get [] none none [] [] [] 0).2.2.1 rfl (by decide),
   (c3_chunked Method.head [] none none [] [] [] 0).2.2.2 (Or.inl rfl)⟩

/-- Claim C4 is false on the code: on a byte-exact `If-Modified-Since`
match with a gzip alternate selected, the 304 response does carry a
`Content-Encoding: gzip` header, because the encoding match in
`response::send` is not gated on the not-modified branch. -/
theorem c4_counterexample :
    bytes "304 not modified" <:+:
      (send Method.get Protocol.http11 [] (some ContentEncoding.gzip)
        (some (bytes "TS")) [] (bytes "TS") [[104]] 1).1
    ∧ bytes "Content-Encoding: gzip" <:+:
      (send Method.get Protocol.http11 [] (some ContentEncoding.gzip)
        (some (bytes "TS")) [] (bytes "TS") [[104]] 1).1 := by
  constructor
  · exact ⟨bytes "HTTP/1.1 ",
      crlf ++ bytes "Server: abstract screaming\r\nDate: " ++ crlf
        ++ bytes "Content-Type: " ++ crlf ++ bytes "Last-Modified: "
        ++ bytes "TS" ++ crlf ++ bytes "Content-Encoding: gzip\r\n"
        ++ bytes "Transfer-Encoding: chunked\r\n\r\n", by decide⟩
  · exact ⟨bytes "HTTP/1.1 304 not modified\r\nServer: abstract screaming"
        ++ crlf ++ bytes "Date: " ++ crlf ++ bytes "Content-Type: " ++ crlf
        ++ bytes "Last-Modified: " ++ bytes "TS" ++ crlf,
      crlf ++ bytes "Transfer-Encoding: chunked\r\n\r\n", by decide⟩

/-- Claim C4 amended: when `if_modified_since` equals the formatted
`Last-Modified` value byte-for-byte, the response has status
`304 not modified` and no body bytes are written (the output does not
depend on the file content), but the `Content-Encoding: gzip` header IS
still emitted whenever a gzip alternate was selected. -/
theorem c4_not_modified (method : Method) (protocol : Protocol)
    (nowStr : List Nat) (encoding : Option ContentEncoding)
    (ims : Option (List Nat)) (content_type mtimeStr : List Nat)
    (chunks : List (List Nat)) (length : Nat) (h : ims = some mtimeStr) :
    (start_response protocol nowStr (bytes "304") (bytes "not modified") <+:
      (send method protocol nowStr encoding ims content_type mtimeStr chunks
        length).1)
    ∧ ((send method protocol nowStr encoding ims content_type mtimeStr chunks
          length).1 =
        (send method protocol nowStr encoding ims content_type mtimeStr []
          length).1)
    ∧ (encoding = some ContentEncoding.gzip →
        bytes "Content-Encoding: gzip\r\n" <:+:
          (send method protocol nowStr encoding ims content_type mtimeStr
            chunks length).1) := by
  subst h
  have hu : (some mtimeStr == some mtimeStr) = true := by simp
  have hsc : ((method == Method.get) && !(some mtimeStr == some mtimeStr))
      = false := by simp
  refine ⟨?_, ?_, ?_⟩
  · cases protocol with
    | http10 =>
      cases encoding with
      | none =>
        refine ⟨bytes "Content-Type: " ++ (content_type ++ (crlf
          ++ (bytes "Last-Modified: " ++ (mtimeStr ++ (crlf
          ++ (send_unencoded false chunks length).1))))), ?_⟩
        simp [send, sendHead, hu, hsc, List.append_assoc]
      | some ce =>
        cases ce
        refine ⟨bytes "Content-Type: " ++ (content_type ++ (crlf
          ++ (bytes "Last-Modified: " ++ (mtimeStr ++ (crlf
          ++ (bytes "Content-Encoding: gzip\r\n"
          ++ (send_unencoded false chunks length).1)))))), ?_⟩
        simp [send, sendHead, hu, hsc, List.append_assoc]
    | http11 =>
      cases encoding with
      | none =>
        refine ⟨bytes "Content-Type: " ++ (content_type ++ (crlf
          ++ (bytes "Last-Modified: " ++ (mtimeStr ++ (crlf
          ++ (send_chunked false chunks).1))))), ?_⟩
        simp [send, sendHead, hu, hsc, List.append_assoc]
      | some ce =>
        cases ce
        refine ⟨bytes "Content-Type: " ++ (content_type ++ (crlf
          ++ (bytes "Last-Modified: " ++ (mtimeStr ++ (crlf
          ++ (bytes "Content-Encoding: gzip\r\n"
          ++ (send_chunked false chunks).1)))))), ?_⟩
        simp [send, sendHead, hu, hsc, List.append_assoc]
  · cases protocol <;>
      simp [send, send_unencoded, send_chunked, hu, hsc]
  · intro he; subst he
    cases protocol with
    | http10 =>
      refine ⟨start_response Protocol.http10 nowStr (bytes "304")
          (bytes "not modified") ++ bytes "Content-Type: " ++ content_type
          ++ crlf ++ bytes "Last-Modified: " ++ mtimeStr ++ crlf,
        (send_unencoded false chunks length).1, ?_⟩
      simp [send, sendHead, hu, hsc, List.append_assoc]
    | http11 =>
      refine ⟨start_response Protocol.http11 nowStr (bytes "304")
          (bytes "not modified") ++ bytes "Content-Type: " ++ content_type
          ++ crlf ++ bytes "Last-Modified: " ++ mtimeStr ++ crlf,
        (send_chunked false chunks).1, ?_⟩
      simp [send, sendHead, hu, hsc, List.append_assoc]

/-- Concrete instance of the amended Claim C4. -/
theorem c4_not_modified_witness :
    (start_response Protocol.http11 [] (bytes "304") (bytes "not modified") <+:
      (send Method.get Protocol.http11 [] (some ContentEncoding.gzip)
        (some (bytes "TS")) [] (bytes "TS") [[104]] 1).1)
    ∧ bytes "Content-Encoding: gzip\r\n" <:+:
        (send Method.get Protocol.http11 [] (some ContentEncoding.gzip)
          (some (bytes "TS")) [] (bytes "TS") [[104]] 1).1 :=
  ⟨(c4_not_modified Method.get Protocol.http11 [] (some ContentEncoding.gzip)
      (some (bytes "TS")) [] (bytes "TS") [[104]] 1 rfl).1,
   (c4_not_modified Method.get Protocol.http11 [] (some ContentEncoding.gzip)
      (some (bytes "TS")) [] (bytes "TS") [[104]] 1 rfl).2.2 rfl⟩

/-- Claim C9: for every error with a status pair, `response::barf` emits
a `Content-Length` of `len(reason) + 28`; the body written when content
is sent is exactly the HTML wrapper around the reason, whose length is
that same `len(reason) + 28`; for `ConnectionClosed` nothing is
written. -/
theorem c9_barf (e : HttpError) (protocol : Option Protocol)
    (nowStr : List Nat) :
    (e = HttpError.connectionClosed → ∀ sc, barf protocol sc e nowStr = [])
    ∧ (∀ code msg, e.status = some (code, msg) →
        ((bytes "Content-Length: " ++ decBytes (msg.length + 28) ++ crlf) <:+:
          barf protocol true e nowStr)
        ∧ ((bytes "<html><body>" ++ msg ++ bytes "</body></html>\r\n") <:+
            barf protocol true e nowStr)
        ∧ (bytes "<html><body>" ++ msg ++ bytes "</body></html>\r\n").length
            = msg.length + 28) := by
  constructor
  · intro h sc; subst h; rfl
  · intro code msg hst
    have hb : barf protocol true e nowStr =
        start_response (protocol.getD Protocol.http10) nowStr code msg
        ++ bytes "Content-Length: " ++ decBytes (msg.length + 28) ++ crlf
        ++ (if protocol == some Protocol.http11 then
              bytes "Connection: close\r\n" else [])
        ++ bytes "Content-Type: text/html\r\n\r\n"
        ++ (bytes "<html><body>" ++ msg ++ bytes "</body></html>\r\n") := by
      simp [barf, hst]
    refine ⟨?_, ?_, ?_⟩
    · refine ⟨start_response (protocol.getD Protocol.http10) nowStr code msg,
        (if protocol == some Protocol.http11 then
          bytes "Connection: close\r\n" else [])
        ++ bytes "Content-Type: text/html\r\n\r\n"
        ++ (bytes "<html><body>" ++ msg ++ bytes "</body></html>\r\n"), ?_⟩
      rw [hb]; simp [List.append_assoc]
    · rw [hb]; exact List.suffix_append _ _
    · have h12 : (bytes "<html><body>").length = 12 := by decide
      have h16 : (bytes "</body></html>\r\n").length = 16 := by decide
      simp [List.length_append, h12, h16]; omega

/-- Concrete instances of Claim C9: `ConnectionClosed` writes nothing; a
`400` response carries the wrapped reason and its Content-Length. -/
theorem c9_barf_witness :
    barf none true HttpError.connectionClosed [] = []
    ∧ ((bytes "<html><body>" ++ bytes "bad request"
        ++ bytes "</body></html>\r\n") <:+ barf none true HttpError.badRequest [])
    ∧ ((bytes "Content-Length: "
        ++ decBytes ((bytes "bad request").length + 28) ++ crlf) <:+:
          barf none true HttpError.badRequest []) := by
  refine ⟨(c9_barf HttpError.connectionClosed none []).1 rfl true, ?_, ?_⟩
  · exact ((c9_barf HttpError.badRequest none []).2 (bytes "400")
      (bytes "bad request") rfl).2.1
  · exact ((c9_barf HttpError.badRequest none []).2 (bytes "400")
      (bytes "bad request") rfl).1
